import Mathlib

/-
Verification of the SQL_utils repository (src/utils.py) against its
natural-language specification.

The development shallowly embeds the parts of the code the claims are
about:

- the `Database` connection-pool bookkeeping (`open_pool`, `close_pool`,
  `get_connection`, `put_back_connection`, the `connect` context manager),
  including the relevant behaviour of the underlying
  `psycopg2.pool.ThreadedConnectionPool` (`getconn` pops the last idle
  connection or creates a fresh one up to `maxconn`; `putconn` keeps the
  connection idle only while fewer than `minconn` are idle);
- the statement executor `Database.send` (implicit transaction with
  commit on success and rollback inside the catch-all except clause,
  the inner `except psycopg2.ProgrammingError` normalising a missing
  result set to `[]`, the `fetchone`/`fetchall` selection);
- the notification drain loop of `Listener.subscribe`
  (`while conn.notifies: notify = conn.notifies.pop(); q.put(notify)`).

Machine state that the Python code keeps implicitly (the set of physical
connections, per-connection transaction state, the database contents) is
made explicit; physical connections are identified by natural numbers
handed out by an allocator so that two distinct physical connections are
never conflated. Connections closed by `closeall()` — which closes
checked-out connections too, while `self.conns` retains its entries — are
tracked so that `conn.reset()` on such a stale connection raises
`psycopg2.InterfaceError` exactly as in the code.
-/

namespace SQLUtils

/-- Python `list.pop()` with no argument: removes and returns the LAST
element of the list, or raises (here: `none`) on an empty list. -/
def pyPop : List α → Option (α × List α)
  | [] => none
  | [x] => some (x, [])
  | x :: y :: xs =>
    match pyPop (y :: xs) with
    | some (c, rest) => some (c, x :: rest)
    | none => none

theorem pyPop_nil : pyPop ([] : List α) = none := rfl

theorem pyPop_eq_none {l : List α} (h : pyPop l = none) : l = [] := by
  induction l with
  | nil => rfl
  | cons x xs ih =>
    cases xs with
    | nil => simp [pyPop] at h
    | cons y ys =>
      simp only [pyPop] at h
      cases hp : pyPop (y :: ys) with
      | none => exact absurd (ih hp) (by simp)
      | some p => rw [hp] at h; cases p; simp at h

theorem pyPop_some {l rest : List α} {c : α}
    (h : pyPop l = some (c, rest)) : l = rest ++ [c] := by
  induction l generalizing rest with
  | nil => simp [pyPop] at h
  | cons x xs ih =>
    cases xs with
    | nil =>
      simp only [pyPop, Option.some.injEq, Prod.mk.injEq] at h
      rw [← h.1, ← h.2]; rfl
    | cons y ys =>
      simp only [pyPop] at h
      cases hp : pyPop (y :: ys) with
      | none => rw [hp] at h; simp at h
      | some p =>
        rw [hp] at h
        cases p with
        | mk c0 rest0 =>
          simp only [Option.some.injEq, Prod.mk.injEq] at h
          obtain ⟨h1, h2⟩ := h
          subst h1
          rw [← h2, ih hp]
          rfl

theorem pyPop_append (ys : List α) (y : α) :
    pyPop (ys ++ [y]) = some (y, ys) := by
  induction ys with
  | nil => rfl
  | cons x xs ih =>
    cases xs with
    | nil => simp only [List.cons_append, List.nil_append, pyPop, ih]
    | cons z zs =>
      simp only [List.cons_append] at ih ⊢
      simp only [pyPop, ih]

/-- Drain loop at the bottom of `Listener.subscribe`:

    while conn.notifies:
        notify = conn.notifies.pop()
        q.put(notify)

Input: the connection's buffered notification backlog (in arrival order,
oldest first, as psycopg2 appends incoming notifications) and the current
contents of the eventlet queue (front first; `q.put` appends at the back).
Output: the backlog and the queue when the loop exits. -/
def drainNotifies : List α → List α → List α × List α
  | backlog, q =>
    match h : pyPop backlog with
    | none => (backlog, q)
    | some (n, rest) => drainNotifies rest (q ++ [n])
termination_by backlog _ => backlog.length
decreasing_by
  simp only [pyPop_some h, List.length_append, List.length_cons, List.length_nil]
  omega

theorem drainNotifies_nil (q : List α) : drainNotifies [] q = ([], q) := by
  rw [drainNotifies]
  rfl

theorem drainNotifies_append (ys : List α) (y : α) (q : List α) :
    drainNotifies (ys ++ [y]) q = drainNotifies ys (q ++ [y]) := by
  rw [drainNotifies]
  have hp := pyPop_append ys y
  split
  next h => rw [hp] at h; cases h
  next n rest h =>
    rw [hp] at h
    simp only [Option.some.injEq, Prod.mk.injEq] at h
    obtain ⟨h1, h2⟩ := h
    subst h1
    subst h2
    rfl

/-- The drain loop empties the backlog and appends it to the queue in
REVERSED arrival order: `pop()` takes from the end of the backlog. -/
theorem drainNotifies_eq (l q : List α) :
    drainNotifies l q = ([], q ++ l.reverse) := by
  induction l using List.reverseRecOn generalizing q with
  | nil => simp [drainNotifies_nil]
  | append_singleton ys y ih =>
    rw [drainNotifies_append, ih]
    simp

/-- Lookup in an association list keyed by `Nat`, mirroring Python dict
access `self.conns[key]` / the membership test `key in self.conns`. -/
def lookupKey : List (Nat × β) → Nat → Option β
  | [], _ => none
  | p :: ps, k => if p.1 = k then some p.2 else lookupKey ps k

/-- Removal of a key, mirroring Python `self.conns.pop(key)`. -/
def removeKey (l : List (Nat × β)) (k : Nat) : List (Nat × β) :=
  l.filter (fun p => decide (p.1 ≠ k))

/-- State of the `psycopg2.pool.ThreadedConnectionPool` held in
`Database.pool`: the pool's configured `minconn`/`maxconn` and the list of
idle physical connections (`self._pool`, appended at the back, popped from
the back). The checked-out map `self._used` is kept in lockstep with
`Database.conns`, which the embedding records once in `Database.conns`. -/
structure PoolState where
  minconn : Nat
  maxconn : Nat
  idle : List Nat
deriving DecidableEq

/-- State of a `Database` object: `self.pool` (None until `open_pool`) and
`self.conns`, the dictionary of checked-out connections keyed by the
caller-chosen key. Physical connections are identified by naturals handed
out by the allocator `fresh` (a model artifact standing for object
identity of the psycopg2 connection objects: a newly created connection is
distinct from every existing one). `dead` records the identities of
connections that have been closed by `closeall()` — which closes the idle
AND the checked-out connections — while still referenced from
`self.conns`; operations on such a closed connection object raise
`psycopg2.InterfaceError`. -/
structure Database where
  pool : Option PoolState
  conns : List (Nat × Nat)
  dead : List Nat
  fresh : Nat
deriving DecidableEq

/-- Fresh `Database(config)` object: `self.pool = None`, `self.conns` empty. -/
def Database.init : Database := ⟨none, [], [], 0⟩

/-- Outcome of `Database.get_connection` as observable by logs / control
flow: a success, the already-in-use warning, the `sys.exit()` after a
`psycopg2.pool.PoolError` (pool exhausted), or the no-pool warning. -/
inductive AcquireOutcome where
  | success (conn : Nat)
  | alreadyInUse
  | poolExit
  | noPool
deriving DecidableEq

/-- Model of `Database.open_pool(minconns=1, maxconns=None)`: if `self.pool is None`,
sets `maxconns = maxconns if maxconns is not None else minconns` and builds
a `ThreadedConnectionPool(minconns, maxconns, ...)`, which eagerly creates
`minconns` physical connections in its idle list; otherwise does nothing. -/
def Database.open_pool (db : Database) (minconns : Nat) (maxconns : Option Nat) :
    Database :=
  match db.pool with
  | some _ => db
  | none =>
    let mx := maxconns.getD minconns
    { db with
        pool := some { minconn := minconns, maxconn := mx,
                       idle := List.range' db.fresh minconns },
        fresh := db.fresh + minconns }

/-- Model of `Database.close_pool()`: if a pool exists, `closeall()` —
which closes EVERY physical connection, the idle ones and the checked-out
ones alike (`self._pool + list(self._used.values())`) — and
`self.pool = None`. `self.conns` is NOT cleared, so it can retain keys
pointing at now-closed connection objects. -/
def Database.close_pool (db : Database) : Database :=
  match db.pool with
  | some p =>
    { db with pool := none,
              dead := db.dead ++ p.idle ++ db.conns.map Prod.snd }
  | none => db

/-- Model of `Database.get_connection(key=1)`. With a pool present and the key not
yet in `self.conns`, `self.pool.getconn(key)` pops the last idle connection
if there is one, otherwise creates a fresh connection unless
`len(self._used) == self.maxconn`, in which case a `PoolError` is raised and
the handler calls `sys.exit()`. On success the connection is recorded in
`self.conns[key]` (the post-acquire `on_conn_retrieval` probe runs a query
on that connection and does not change the bookkeeping state). With the key
already present, only a warning is logged; with no pool, only a warning is
logged. -/
def Database.get_connection (db : Database) (key : Nat) :
    Database × AcquireOutcome :=
  match db.pool with
  | none => (db, .noPool)
  | some p =>
    match lookupKey db.conns key with
    | some _ => (db, .alreadyInUse)
    | none =>
      match pyPop p.idle with
      | some (c, rest) =>
        ({ db with pool := some { p with idle := rest },
                   conns := (key, c) :: db.conns }, .success c)
      | none =>
        if db.conns.length = p.maxconn then (db, .poolExit)
        else
          ({ db with pool := some p,
                     conns := (key, db.fresh) :: db.conns,
                     fresh := db.fresh + 1 }, .success db.fresh)

/-- Outcome of `Database.put_back_connection`: success, the never-opened
warning, the `psycopg2.InterfaceError` raised by `conn.reset()` when the
checked-out connection was already closed by a past `close_pool`
(`closeall()` closes checked-out connections too), or the
`AttributeError` that `self.pool.putconn` would raise with `self.pool`
`None`. The latter branch mirrors the statement order of the source but is
unreachable from reachable states: a checked-out connection with no pool
has always been closed by the very `close_pool` that removed the pool, so
`conn.reset()` raises first. -/
inductive ReleaseOutcome where
  | success
  | neverOpened
  | interfaceError
  | attrError
deriving DecidableEq

/-- Model of `Database.put_back_connection(key=1)`: if the key is checked
out, `conn.reset()` — which raises `psycopg2.InterfaceError` if the
connection object has been closed (by a past `closeall()`) — then
`self.pool.putconn(conn, key)` — which keeps the connection in the idle
list only while fewer than `minconn` connections are idle, closing it
otherwise, and raises `AttributeError` if `self.pool` is `None` — and
finally `self.conns.pop(key)`. With the key not checked out only a warning
is logged. An exception leaves the state untouched: it is raised before
the dictionary is modified. -/
def Database.put_back_connection (db : Database) (key : Nat) :
    Database × ReleaseOutcome :=
  match lookupKey db.conns key with
  | none => (db, .neverOpened)
  | some c =>
    if c ∈ db.dead then (db, .interfaceError)
    else
      match db.pool with
      | none => (db, .attrError)
      | some p =>
        let p' := if p.idle.length < p.minconn
                  then { p with idle := p.idle ++ [c] } else p
        ({ db with pool := some p', conns := removeKey db.conns key },
         .success)

/-- Outcome of the body wrapped by the `Database.connect` context manager:
it returns normally, raises an `Exception`, or raises `KeyboardInterrupt`
(the two classes named in the `except` clause of `connect`). -/
inductive BodyOutcome where
  | normal
  | raisesExc
  | kbInterrupt
deriving DecidableEq

/-- Whether the `except (Exception, KeyboardInterrupt)` clause of
`Database.connect` runs (and logs) for a given body outcome. -/
def BodyOutcome.caught : BodyOutcome → Bool
  | .normal => false
  | .raisesExc => true
  | .kbInterrupt => true

/-- How one execution of the `Database.connect` context manager ends:
the with-block completes (recording whether a body error was caught and
logged), the process exits inside `get_connection` before the `try` block,
or an exception from `put_back_connection` — `InterfaceError` from
`conn.reset()` on a closed connection, or `AttributeError` from
`self.pool.putconn` on a missing pool — propagates out of the `finally`
clause. -/
inductive ConnectResult where
  | completed (caughtBodyError : Bool)
  | exitedAtAcquire
  | releaseRaised
deriving DecidableEq

/-- Shared tail of `Database.connect`: the wrapped body has run (an
`Exception` or `KeyboardInterrupt` it raised was caught and logged by the
`except` clause; the body performs queries only and does not change the
bookkeeping state) and the `finally` clause calls
`put_back_connection(key)`; an exception raised there propagates to the
caller. -/
def Database.finish_connect (db1 : Database) (key : Nat)
    (body : BodyOutcome) : Database × ConnectResult :=
  match db1.put_back_connection key with
  | (db2, .interfaceError) => (db2, .releaseRaised)
  | (db2, .attrError) => (db2, .releaseRaised)
  | (db2, _) => (db2, .completed body.caught)

/-- Model of `Database.connect(key=1)`: calls `get_connection(key)` (before
the `try`, so a `sys.exit` there propagates and nothing is released),
then runs the body / except / finally tail `finish_connect`. -/
def Database.connect (db : Database) (key : Nat) (body : BodyOutcome) :
    Database × ConnectResult :=
  match db.get_connection key with
  | (db1, .poolExit) => (db1, .exitedAtAcquire)
  | (db1, _) => db1.finish_connect key body

/-- One call against the pool bookkeeping: the operations a client of the
`Database` class can perform on it. -/
inductive Op where
  | acquire (key : Nat)
  | release (key : Nat)
  | openP (minconns : Nat) (maxconns : Option Nat)
  | closeP
deriving DecidableEq

/-- Effect of one operation on the bookkeeping state. -/
def Database.step (db : Database) : Op → Database
  | .acquire k => (db.get_connection k).1
  | .release k => (db.put_back_connection k).1
  | .openP m mx => db.open_pool m mx
  | .closeP => db.close_pool

/-- Effect of a sequence of operations, first operation first. -/
def Database.run (db : Database) : List Op → Database
  | [] => db
  | op :: ops => (db.step op).run ops

/-- Transaction state of one psycopg2 connection over an abstract database
state `σ`: `committed` is the durable database state as of the last commit,
`current` the state visible inside the open implicit transaction.
`commit` copies `current` into `committed`; `rollback` copies `committed`
into `current`. -/
structure Conn (σ : Type) where
  committed : σ
  current : σ
deriving DecidableEq

/-- What the fetch step (`cur.fetchone()` / `cur.fetchall()`) of one call
does, as dictated by the database driver for the executed statement:
the cursor holds a result set with the given rows (in result order); the
statement produced no result set, so fetching raises
`psycopg2.ProgrammingError` (e.g. after a LISTEN command); or fetching
raises some other driver error (e.g. the connection dropped). -/
inductive FetchBeh (ρ : Type) where
  | rows (rs : List ρ)
  | noResults
  | connErr
deriving DecidableEq

/-- What executing the statement (`cur.execute` / `cur.copy_expert` after
`cur.mogrify`) does: it raises an `Exception`-class error (a statement
error such as a malformed column name; any tentative effect `f` on the
in-transaction state is then subject to the rollback), or it succeeds with
effect `f` on the in-transaction state and the given fetch behaviour. -/
inductive StmtBeh (σ ρ : Type) where
  | raises (f : σ → σ)
  | ok (f : σ → σ) (fetch : FetchBeh ρ)

/-- Whether a call with this behaviour runs to the commit and the return
statement without an error being raised (for the documented fetch codes). -/
def StmtBeh.succeeds : StmtBeh σ ρ → Bool
  | .raises _ => false
  | .ok _ fetch =>
    match fetch with
    | .connErr => false
    | _ => true

/-- The effect of the statement on the in-transaction database state. -/
def StmtBeh.eff : StmtBeh σ ρ → (σ → σ)
  | .raises f => f
  | .ok f _ => f

/-- Python value returned by `Database.send` to its caller: `None`
(the implicit `return None` of the error and no-connection paths, and also
what `fetchone` yields on an empty result set), a single row (`fetchone`
on a non-empty result set), or a list of rows (`fetchall`, and the `[]`
the ProgrammingError handler substitutes). -/
inductive PyVal (ρ : Type) where
  | none
  | row (r : ρ)
  | rows (rs : List ρ)
deriving DecidableEq

/-- How a call to `Database.send` ends for its caller: a normal return of
a Python value, or an exception escaping `send`. The catch-all
`except (Exception, psycopg2.Error, psycopg2.DatabaseError)` clause means
no statement-level error ever produces `raised`; the constructor exists to
state claims about errors being surfaced to the caller. -/
inductive SendOutcome (ρ : Type) where
  | ret (v : PyVal ρ)
  | raised
deriving DecidableEq

/-- Body of `Database.send` acting on the connection checked out under the
key (source lines 196-233). Faithful control flow:

    try:
        (mogrify; execute or copy_expert)        -- may raise
        try:
            if fetch_method == 0: records = cur.fetchone()
            elif fetch_method == 2: records = cur.fetchall()
        except psycopg2.ProgrammingError:
            records = []
        conn.commit()
        (log success)
        return records                           -- UnboundLocalError if
                                                 -- records was never set
    except (Exception, psycopg2.Error, psycopg2.DatabaseError):
        conn.rollback()
        (log error)                              -- falls through: None

The inner fetch computation is encoded as `none` when a non-ProgrammingError
exception is raised during fetching (propagating to the outer clause) and
`some records?` otherwise, with `records? = none` when no fetch branch ran
and `records` stayed unbound. -/
def sendOnConn (c : Conn σ) (beh : StmtBeh σ ρ) (fetch_method : Nat) :
    Conn σ × SendOutcome ρ :=
  match beh with
  | .raises f =>
    let c1 : Conn σ := ⟨c.committed, f c.current⟩
    (⟨c1.committed, c1.committed⟩, .ret .none)
  | .ok f fetch =>
    let c1 : Conn σ := ⟨c.committed, f c.current⟩
    let fetched : Option (Option (PyVal ρ)) :=
      if fetch_method = 0 then
        match fetch with
        | .rows rs =>
          some (some (match rs with | [] => .none | r :: _ => .row r))
        | .noResults => some (some (.rows []))
        | .connErr => none
      else if fetch_method = 2 then
        match fetch with
        | .rows rs => some (some (.rows rs))
        | .noResults => some (some (.rows []))
        | .connErr => none
      else some none
    match fetched with
    | none =>
      (⟨c1.committed, c1.committed⟩, .ret .none)
    | some none =>
      let c2 : Conn σ := ⟨c1.current, c1.current⟩
      (⟨c2.committed, c2.committed⟩, .ret .none)
    | some (some v) =>
      (⟨c1.current, c1.current⟩, .ret v)

/-- Reassignment `self.conns[key] = conn` done in the `finally` clause of
`Database.send` (the entry already exists; its value is replaced). -/
def updateConn (conns : List (Nat × Conn σ)) (key : Nat) (c : Conn σ) :
    List (Nat × Conn σ) :=
  conns.map (fun p => if p.1 = key then (key, c) else p)

/-- Model of `Database.send(query, args, ..., fetch_method, key)` at the level of the
checked-out connection dictionary: if the key has no entry, only a warning
is logged and `None` is returned (the statement is never executed);
otherwise the body `sendOnConn` runs on that connection and the `finally`
clause stores the connection back under the key. -/
def dbSend (conns : List (Nat × Conn σ)) (key : Nat) (beh : StmtBeh σ ρ)
    (fetch_method : Nat) : List (Nat × Conn σ) × SendOutcome ρ :=
  match lookupKey conns key with
  | none => (conns, .ret .none)
  | some c =>
    let r := sendOnConn c beh fetch_method
    (updateConn conns key r.1, r.2)

/-- Query string built by `Database.listen_on_channel`. -/
def listenQuery (channel : String) : String :=
  "LISTEN " ++ channel ++ ";"

/-- Model of `Database.listen_on_channel(channel, key=1)`: sends the LISTEN query
through `Database.send` with `args=None` and the default
`fetch_method=2` (`fetchall`). The driver behaviour for the LISTEN
statement is the `beh` argument. -/
def listen_on_channel (conns : List (Nat × Conn σ)) (channel : String)
    (key : Nat) (beh : StmtBeh σ ρ) : List (Nat × Conn σ) × SendOutcome ρ :=
  dbSend conns key beh 2

theorem lookupKey_eq_none {l : List (Nat × β)} {k : Nat} :
    lookupKey l k = none ↔ k ∉ l.map Prod.fst := by
  induction l with
  | nil => simp [lookupKey]
  | cons p ps ih =>
    cases p with
    | mk k' c' =>
      by_cases hk : k' = k
      · subst hk
        simp [lookupKey]
      · simp only [lookupKey, if_neg hk, List.map_cons, List.mem_cons,
          not_or, ih]
        constructor
        · intro h
          exact ⟨fun hkk => hk hkk.symm, h⟩
        · intro h
          exact h.2

theorem lookupKey_cons_self (ps : List (Nat × β)) (k : Nat) (c : β) :
    lookupKey ((k, c) :: ps) k = some c := by
  simp [lookupKey]

theorem lookupKey_some_mem {l : List (Nat × β)} {k : Nat} {c : β}
    (h : lookupKey l k = some c) : (k, c) ∈ l := by
  induction l with
  | nil => simp [lookupKey] at h
  | cons p ps ih =>
    cases p with
    | mk k' c' =>
      by_cases hk : k' = k
      · subst hk
        rw [lookupKey_cons_self] at h
        injection h with h'
        subst h'
        exact List.mem_cons_self _ _
      · simp only [lookupKey, if_neg hk] at h
        exact List.mem_cons_of_mem _ (ih h)

theorem lookupKey_some_mem_snd {l : List (Nat × Nat)} {k c : Nat}
    (h : lookupKey l k = some c) : c ∈ l.map Prod.snd :=
  List.mem_map_of_mem Prod.snd (lookupKey_some_mem h)

theorem removeKey_sublist (l : List (Nat × β)) (k : Nat) :
    (removeKey l k).Sublist l :=
  List.filter_sublist l

theorem map_removeKey_sublist (f : Nat × β → γ) (l : List (Nat × β))
    (k : Nat) : ((removeKey l k).map f).Sublist (l.map f) :=
  (removeKey_sublist l k).map f

theorem removeKey_cons_self (ps : List (Nat × β)) (k : Nat) (c : β) :
    removeKey ((k, c) :: ps) k = removeKey ps k := by
  simp [removeKey]

theorem removeKey_cons_ne (ps : List (Nat × β)) {k k' : Nat} (c : β)
    (h : k' ≠ k) : removeKey ((k', c) :: ps) k = (k', c) :: removeKey ps k := by
  simp [removeKey, List.filter_cons, h]

theorem not_mem_map_snd_removeKey {l : List (Nat × Nat)} {k c : Nat}
    (hsnd : (l.map Prod.snd).Nodup) (h : lookupKey l k = some c) :
    c ∉ (removeKey l k).map Prod.snd := by
  induction l with
  | nil => simp [lookupKey] at h
  | cons p ps ih =>
    cases p with
    | mk k' c' =>
      simp only [List.map_cons, List.nodup_cons] at hsnd
      obtain ⟨hc', hnd⟩ := hsnd
      by_cases hk : k' = k
      · subst hk
        rw [lookupKey_cons_self] at h
        injection h with h'
        subst h'
        rw [removeKey_cons_self]
        intro hmem
        exact hc' ((map_removeKey_sublist Prod.snd ps _).subset hmem)
      · simp only [lookupKey, if_neg hk] at h
        have hcmem : c ∈ ps.map Prod.snd := lookupKey_some_mem_snd h
        have hne : c ≠ c' := fun hcc => hc' (hcc ▸ hcmem)
        rw [removeKey_cons_ne ps c' hk]
        simp only [List.map_cons, List.mem_cons, not_or]
        exact ⟨hne, ih hnd h⟩

/-- Bookkeeping invariant of the `Database` object: no key appears twice in
`self.conns`; no physical connection is checked out under two keys; every
checked-out connection identity was actually allocated; and when a pool
exists, its idle connections are pairwise distinct, disjoint from the
checked-out ones, and were actually allocated. -/
def Inv (db : Database) : Prop :=
  (db.conns.map Prod.fst).Nodup ∧
  (db.conns.map Prod.snd).Nodup ∧
  (∀ c ∈ db.conns.map Prod.snd, c < db.fresh) ∧
  ∀ p : PoolState, db.pool = some p →
    p.idle.Nodup ∧ (∀ c ∈ p.idle, c ∉ db.conns.map Prod.snd) ∧
    ∀ c ∈ p.idle, c < db.fresh

theorem inv_init : Inv Database.init := by
  refine ⟨List.nodup_nil, List.nodup_nil, ?_, ?_⟩
  · intro c hc
    simp [Database.init] at hc
  · intro p hp
    simp [Database.init] at hp

theorem open_pool_already (db : Database) (m : Nat) (mx : Option Nat)
    (p : PoolState) (h : db.pool = some p) : db.open_pool m mx = db := by
  unfold Database.open_pool
  rw [h]

theorem open_pool_fresh (db : Database) (m : Nat) (mx : Option Nat)
    (h : db.pool = none) :
    db.open_pool m mx =
      { db with
          pool := some { minconn := m, maxconn := mx.getD m,
                         idle := List.range' db.fresh m },
          fresh := db.fresh + m } := by
  unfold Database.open_pool
  rw [h]

theorem close_pool_pool (db : Database) : (db.close_pool).pool = none := by
  unfold Database.close_pool
  cases h : db.pool with
  | some p => rfl
  | none => exact h

theorem close_pool_conns (db : Database) : (db.close_pool).conns = db.conns := by
  unfold Database.close_pool
  cases h : db.pool with
  | some p => rfl
  | none => rfl

theorem close_pool_fresh (db : Database) : (db.close_pool).fresh = db.fresh := by
  unfold Database.close_pool
  cases h : db.pool with
  | some p => rfl
  | none => rfl

theorem get_connection_noPool (db : Database) (k : Nat)
    (h : db.pool = none) : db.get_connection k = (db, .noPool) := by
  unfold Database.get_connection
  rw [h]

theorem get_connection_inUse (db : Database) (k : Nat) (p : PoolState)
    (c : Nat) (hp : db.pool = some p) (hl : lookupKey db.conns k = some c) :
    db.get_connection k = (db, .alreadyInUse) := by
  unfold Database.get_connection
  rw [hp, hl]

theorem get_connection_pop (db : Database) (k : Nat) (p : PoolState)
    (c : Nat) (rest : List Nat) (hp : db.pool = some p)
    (hl : lookupKey db.conns k = none) (hpop : pyPop p.idle = some (c, rest)) :
    db.get_connection k =
      ({ db with pool := some { p with idle := rest },
                 conns := (k, c) :: db.conns }, .success c) := by
  unfold Database.get_connection
  rw [hp]
  dsimp only
  rw [hl]
  dsimp only
  rw [hpop]

theorem get_connection_exhausted (db : Database) (k : Nat) (p : PoolState)
    (hp : db.pool = some p) (hl : lookupKey db.conns k = none)
    (hpop : pyPop p.idle = none) (hlen : db.conns.length = p.maxconn) :
    db.get_connection k = (db, .poolExit) := by
  unfold Database.get_connection
  rw [hp]
  dsimp only
  rw [hl]
  dsimp only
  rw [hpop]
  dsimp only
  rw [if_pos hlen]

theorem get_connection_create (db : Database) (k : Nat) (p : PoolState)
    (hp : db.pool = some p) (hl : lookupKey db.conns k = none)
    (hpop : pyPop p.idle = none) (hlen : ¬ db.conns.length = p.maxconn) :
    db.get_connection k =
      ({ db with pool := some p, conns := (k, db.fresh) :: db.conns,
                 fresh := db.fresh + 1 }, .success db.fresh) := by
  unfold Database.get_connection
  rw [hp]
  dsimp only
  rw [hl]
  dsimp only
  rw [hpop]
  dsimp only
  rw [if_neg hlen]

theorem put_back_neverOpened (db : Database) (k : Nat)
    (hl : lookupKey db.conns k = none) :
    db.put_back_connection k = (db, .neverOpened) := by
  unfold Database.put_back_connection
  rw [hl]

theorem put_back_interfaceError (db : Database) (k : Nat) (c : Nat)
    (hl : lookupKey db.conns k = some c) (hd : c ∈ db.dead) :
    db.put_back_connection k = (db, .interfaceError) := by
  unfold Database.put_back_connection
  rw [hl]
  dsimp only
  rw [if_pos hd]

theorem put_back_attrError (db : Database) (k : Nat) (c : Nat)
    (hl : lookupKey db.conns k = some c) (hd : c ∉ db.dead)
    (hp : db.pool = none) :
    db.put_back_connection k = (db, .attrError) := by
  unfold Database.put_back_connection
  rw [hl]
  dsimp only
  rw [if_neg hd]
  rw [hp]

theorem put_back_ok (db : Database) (k : Nat) (c : Nat) (p : PoolState)
    (hl : lookupKey db.conns k = some c) (hd : c ∉ db.dead)
    (hp : db.pool = some p) :
    db.put_back_connection k =
      ({ db with
           pool := some (if p.idle.length < p.minconn
                         then { p with idle := p.idle ++ [c] } else p),
           conns := removeKey db.conns k }, .success) := by
  unfold Database.put_back_connection
  rw [hl]
  dsimp only
  rw [if_neg hd]
  rw [hp]

theorem inv_open_pool (db : Database) (m : Nat) (mx : Option Nat)
    (h : Inv db) : Inv (db.open_pool m mx) := by
  cases hp : db.pool with
  | some p =>
    rw [open_pool_already db m mx p hp]
    exact h
  | none =>
    obtain ⟨hks, hvs, hfr, _⟩ := h
    rw [open_pool_fresh db m mx hp]
    have hrange : ∀ c, c ∈ List.range' db.fresh m →
        db.fresh ≤ c ∧ c < db.fresh + m := by
      intro c hc
      rw [List.mem_range'] at hc
      obtain ⟨i, hi, rfl⟩ := hc
      omega
    refine ⟨hks, hvs, ?_, ?_⟩
    · intro c hc
      exact Nat.lt_of_lt_of_le (hfr c hc) (Nat.le_add_right _ _)
    · intro q hq
      dsimp only at hq
      injection hq with hq'
      subst hq'
      refine ⟨List.nodup_range' .., ?_, ?_⟩
      · intro c hc hmem
        exact absurd (hfr c hmem) (Nat.not_lt.mpr (hrange c hc).1)
      · intro c hc
        exact (hrange c hc).2

theorem inv_close_pool (db : Database) (h : Inv db) : Inv db.close_pool := by
  obtain ⟨hks, hvs, hfr, _⟩ := h
  refine ⟨?_, ?_, ?_, ?_⟩
  · rw [close_pool_conns]
    exact hks
  · rw [close_pool_conns]
    exact hvs
  · rw [close_pool_conns, close_pool_fresh]
    exact hfr
  · intro p hp
    rw [close_pool_pool] at hp
    simp at hp

theorem inv_get_connection (db : Database) (k : Nat) (h : Inv db) :
    Inv (db.get_connection k).1 := by
  obtain ⟨hks, hvs, hfr, hpool⟩ := h
  cases hp : db.pool with
  | none =>
    rw [get_connection_noPool db k hp]
    exact ⟨hks, hvs, hfr, hpool⟩
  | some p =>
    cases hl : lookupKey db.conns k with
    | some c =>
      rw [get_connection_inUse db k p c hp hl]
      exact ⟨hks, hvs, hfr, hpool⟩
    | none =>
      cases hpop : pyPop p.idle with
      | some pr =>
        obtain ⟨c, rest⟩ := pr
        rw [get_connection_pop db k p c rest hp hl hpop]
        obtain ⟨hnd, hdisj, hfr2⟩ := hpool p hp
        have hidle : p.idle = rest ++ [c] := pyPop_some hpop
        have hcmem : c ∈ p.idle := by
          rw [hidle]
          exact List.mem_append_right _ (List.mem_singleton_self c)
        have hcnotv : c ∉ db.conns.map Prod.snd := hdisj c hcmem
        have hknot : k ∉ db.conns.map Prod.fst := lookupKey_eq_none.mp hl
        have hrest_sub : ∀ x ∈ rest, x ∈ p.idle := by
          intro x hx
          rw [hidle]
          exact List.mem_append_left _ hx
        have hsplit := hidle ▸ hnd
        rcases List.nodup_append.mp hsplit with ⟨hndr, -, hdj⟩
        have hcrest : c ∉ rest := fun hc =>
          hdj hc (List.mem_singleton_self c)
        refine ⟨?_, ?_, ?_, ?_⟩
        · simp only [List.map_cons, List.nodup_cons]
          exact ⟨hknot, hks⟩
        · simp only [List.map_cons, List.nodup_cons]
          exact ⟨hcnotv, hvs⟩
        · simp only [List.map_cons, List.mem_cons]
          intro x hx
          cases hx with
          | inl hxc =>
            subst hxc
            exact hfr2 x hcmem
          | inr hxm => exact hfr x hxm
        · intro q hq
          dsimp only at hq
          injection hq with hq'
          subst hq'
          refine ⟨hndr, ?_, ?_⟩
          · intro x hx
            simp only [List.map_cons, List.mem_cons, not_or]
            exact ⟨fun hxc => hcrest (hxc ▸ hx),
                   fun hm => hdisj x (hrest_sub x hx) hm⟩
          · intro x hx
            exact hfr2 x (hrest_sub x hx)
      | none =>
        by_cases hlen : db.conns.length = p.maxconn
        · rw [get_connection_exhausted db k p hp hl hpop hlen]
          exact ⟨hks, hvs, hfr, hpool⟩
        · rw [get_connection_create db k p hp hl hpop hlen]
          obtain ⟨hnd, hdisj, hfr2⟩ := hpool p hp
          have hidle : p.idle = [] := pyPop_eq_none hpop
          have hknot : k ∉ db.conns.map Prod.fst := lookupKey_eq_none.mp hl
          refine ⟨?_, ?_, ?_, ?_⟩
          · simp only [List.map_cons, List.nodup_cons]
            exact ⟨hknot, hks⟩
          · simp only [List.map_cons, List.nodup_cons]
            refine ⟨?_, hvs⟩
            intro hmem
            exact absurd (hfr _ hmem) (lt_irrefl _)
          · simp only [List.map_cons, List.mem_cons]
            intro x hx
            cases hx with
            | inl hxc =>
              subst hxc
              omega
            | inr hxm => exact Nat.lt_succ_of_lt (hfr x hxm)
          · intro q hq
            dsimp only at hq
            injection hq with hq'
            subst hq'
            refine ⟨hnd, ?_, ?_⟩
            · intro x hx
              rw [hidle] at hx
              cases hx
            · intro x hx
              rw [hidle] at hx
              cases hx

theorem inv_put_back (db : Database) (k : Nat) (h : Inv db) :
    Inv (db.put_back_connection k).1 := by
  obtain ⟨hks, hvs, hfr, hpool⟩ := h
  cases hl : lookupKey db.conns k with
  | none =>
    rw [put_back_neverOpened db k hl]
    exact ⟨hks, hvs, hfr, hpool⟩
  | some c =>
    by_cases hd : c ∈ db.dead
    · rw [put_back_interfaceError db k c hl hd]
      exact ⟨hks, hvs, hfr, hpool⟩
    cases hp : db.pool with
    | none =>
      rw [put_back_attrError db k c hl hd hp]
      exact ⟨hks, hvs, hfr, hpool⟩
    | some p =>
      rw [put_back_ok db k c p hl hd hp]
      obtain ⟨hnd, hdisj, hfr2⟩ := hpool p hp
      have hsubf := map_removeKey_sublist Prod.fst db.conns k
      have hsubs := map_removeKey_sublist Prod.snd db.conns k
      have hcv : c ∈ db.conns.map Prod.snd := lookupKey_some_mem_snd hl
      have hcni : c ∉ p.idle := fun hci => hdisj c hci hcv
      have hcnr : c ∉ (removeKey db.conns k).map Prod.snd :=
        not_mem_map_snd_removeKey hvs hl
      refine ⟨hsubf.nodup hks, hsubs.nodup hvs, ?_, ?_⟩
      · intro x hx
        exact hfr x (hsubs.subset hx)
      · intro q hq
        dsimp only at hq
        by_cases hlen : p.idle.length < p.minconn
        · rw [if_pos hlen] at hq
          injection hq with hq'
          subst hq'
          refine ⟨?_, ?_, ?_⟩
          · refine List.nodup_append.mpr ⟨hnd, List.nodup_singleton c, ?_⟩
            intro a ha hac
            rw [List.mem_singleton] at hac
            exact hcni (hac ▸ ha)
          · intro x hx
            rcases List.mem_append.mp hx with hxi | hxc
            · exact fun hm => hdisj x hxi (hsubs.subset hm)
            · rw [List.mem_singleton] at hxc
              exact hxc ▸ hcnr
          · intro x hx
            rcases List.mem_append.mp hx with hxi | hxc
            · exact hfr2 x hxi
            · rw [List.mem_singleton] at hxc
              exact hxc ▸ hfr c hcv
        · rw [if_neg hlen] at hq
          injection hq with hq'
          subst hq'
          refine ⟨hnd, ?_, ?_⟩
          · intro x hx hm
            exact hdisj x hx (hsubs.subset hm)
          · intro x hx
            exact hfr2 x hx

theorem inv_step (db : Database) (op : Op) (h : Inv db) : Inv (db.step op) := by
  cases op with
  | acquire k => exact inv_get_connection db k h
  | release k => exact inv_put_back db k h
  | openP m mx => exact inv_open_pool db m mx h
  | closeP => exact inv_close_pool db h

theorem inv_run (db : Database) (ops : List Op) (h : Inv db) :
    Inv (db.run ops) := by
  induction ops generalizing db with
  | nil => exact h
  | cons op ops ih => exact ih _ (inv_step db op h)

theorem lookupKey_removeKey (l : List (Nat × β)) (k : Nat) :
    lookupKey (removeKey l k) k = none := by
  rw [lookupKey_eq_none]
  intro hmem
  rw [List.mem_map] at hmem
  obtain ⟨p, hp, hpk⟩ := hmem
  rw [removeKey, List.mem_filter] at hp
  exact absurd hpk (by simpa using hp.2)

theorem lookupKey_updateConn {conns : List (Nat × Conn σ)} {key : Nat}
    {c : Conn σ} (c' : Conn σ) (h : lookupKey conns key = some c) :
    lookupKey (updateConn conns key c') key = some c' := by
  induction conns with
  | nil => simp [lookupKey] at h
  | cons p ps ih =>
    by_cases hk : p.1 = key
    · simp [updateConn, lookupKey, hk]
    · simp only [lookupKey, if_neg hk] at h
      simp only [updateConn, List.map_cons, if_neg hk, lookupKey, hk,
        if_false]
      exact ih h

theorem updateConn_updateConn (conns : List (Nat × Conn σ)) (key : Nat)
    (a b : Conn σ) :
    updateConn (updateConn conns key a) key b = updateConn conns key b := by
  unfold updateConn
  rw [List.map_map]
  apply List.map_congr_left
  intro p _
  by_cases hk : p.1 = key
  · simp [Function.comp, hk]
  · simp [Function.comp, hk]

/-- C1 (as stated, refuted): draining a batch of buffered notifications
`[n1, n2, n3]` (arrival order) onto an empty queue yields the queue
`[n3, n2, n1]`, not the arrival order `[n1, n2, n3]`: the drain loop pops
from the END of the backlog. -/
theorem drain_batch_not_fifo :
    (drainNotifies [1, 2, 3] ([] : List Nat)).2 = [3, 2, 1] ∧
    (drainNotifies [1, 2, 3] ([] : List Nat)).2 ≠ [1, 2, 3] := by
  have h := drainNotifies_eq [1, 2, 3] ([] : List Nat)
  refine ⟨by rw [h]; rfl, by rw [h]; decide⟩

/-- C1 (amended): the drain step of the bridge empties the connection's
notification backlog and pushes the notifications onto the queue in
REVERSE arrival order (newest first, LIFO within one drained batch); the
pre-existing queue contents are preserved in front. -/
theorem drain_pushes_reverse_order (backlog q : List α) :
    drainNotifies backlog q = ([], q ++ backlog.reverse) :=
  drainNotifies_eq backlog q

/-- C2 (as stated, refuted): a statement whose execution raises is NOT
surfaced to the immediate caller: `send` catches the error, rolls back and
returns Python `None`; no error value reaches the caller. -/
theorem send_swallows_statement_error :
    sendOnConn (⟨0, 0⟩ : Conn Nat)
        (StmtBeh.raises (fun s => s + 1) : StmtBeh Nat Nat) 2 =
      (⟨0, 0⟩, SendOutcome.ret PyVal.none) ∧
    (SendOutcome.ret PyVal.none : SendOutcome Nat) ≠ SendOutcome.raised := by
  exact ⟨rfl, by decide⟩

/-- C2 (amended): on a statement-level failure `send` rolls the transaction
back (the durable state is untouched and the tentative effect is
discarded) and returns `None` to the immediate caller — the error is
logged, not raised — and the session stays usable: a subsequent valid
statement on the same key executes and commits normally. -/
theorem send_statement_error_recovery (conns : List (Nat × Conn σ))
    (key : Nat) (c : Conn σ) (f g : σ → σ) (rs : List ρ)
    (h : lookupKey conns key = some c) :
    dbSend conns key (StmtBeh.raises f : StmtBeh σ ρ) 2 =
      (updateConn conns key ⟨c.committed, c.committed⟩, .ret .none) ∧
    (dbSend (updateConn conns key ⟨c.committed, c.committed⟩) key
        (StmtBeh.ok g (FetchBeh.rows rs)) 2).2 = .ret (.rows rs) ∧
    (dbSend (updateConn conns key ⟨c.committed, c.committed⟩) key
        (StmtBeh.ok g (FetchBeh.rows rs)) 2).1 =
      updateConn conns key ⟨g c.committed, g c.committed⟩ := by
  refine ⟨?_, ?_, ?_⟩
  · unfold dbSend
    rw [h]
    rfl
  · unfold dbSend
    rw [lookupKey_updateConn ⟨c.committed, c.committed⟩ h]
    rfl
  · unfold dbSend
    rw [lookupKey_updateConn ⟨c.committed, c.committed⟩ h]
    dsimp only
    rw [updateConn_updateConn]
    rfl

theorem send_statement_error_recovery_witness :
    lookupKey [(1, (⟨5, 5⟩ : Conn Nat))] 1 = some ⟨5, 5⟩ ∧
    dbSend [(1, (⟨5, 5⟩ : Conn Nat))] 1
        (StmtBeh.raises (fun s => s + 1) : StmtBeh Nat Nat) 2 =
      ([(1, ⟨5, 5⟩)], .ret .none) ∧
    (dbSend [(1, (⟨5, 5⟩ : Conn Nat))] 1
        (StmtBeh.ok (fun s => s * 2) (FetchBeh.rows [9])) 2).2 =
      .ret (.rows [9]) := by
  have h := send_statement_error_recovery [(1, (⟨5, 5⟩ : Conn Nat))] 1
    ⟨5, 5⟩ (fun s => s + 1) (fun s => s * 2) ([9] : List Nat) rfl
  exact ⟨rfl, h.1, h.2.1⟩

/-- C3: with a pool open, a second `get_connection` under a key that just
acquired successfully (no intervening release) only logs the
already-in-use warning — non-fatal — and leaves the whole bookkeeping
state unchanged; the original checkout for the key is still recorded. -/
theorem acquire_same_key_already_in_use (db db1 : Database) (key c : Nat)
    (h : db.get_connection key = (db1, .success c)) :
    db1.get_connection key = (db1, .alreadyInUse) ∧
    lookupKey db1.conns key = some c := by
  cases hp : db.pool with
  | none =>
    rw [get_connection_noPool db key hp] at h
    simp at h
  | some p =>
    cases hl : lookupKey db.conns key with
    | some c0 =>
      rw [get_connection_inUse db key p c0 hp hl] at h
      simp at h
    | none =>
      cases hpop : pyPop p.idle with
      | some pr =>
        obtain ⟨c0, rest⟩ := pr
        rw [get_connection_pop db key p c0 rest hp hl hpop] at h
        rw [Prod.mk.injEq] at h
        obtain ⟨h1, h2⟩ := h
        injection h2 with h2'
        subst h2'
        subst h1
        constructor
        · exact get_connection_inUse _ key { p with idle := rest } c0 rfl
            (lookupKey_cons_self _ _ _)
        · exact lookupKey_cons_self _ _ _
      | none =>
        by_cases hlen : db.conns.length = p.maxconn
        · rw [get_connection_exhausted db key p hp hl hpop hlen] at h
          simp at h
        · rw [get_connection_create db key p hp hl hpop hlen] at h
          rw [Prod.mk.injEq] at h
          obtain ⟨h1, h2⟩ := h
          injection h2 with h2'
          subst h2'
          subst h1
          constructor
          · exact get_connection_inUse _ key p db.fresh rfl
              (lookupKey_cons_self _ _ _)
          · exact lookupKey_cons_self _ _ _

theorem acquire_same_key_already_in_use_witness :
    (Database.init.open_pool 1 none).get_connection 1 =
      ((⟨some ⟨1, 1, []⟩, [(1, 0)], [], 1⟩ : Database), .success 0) ∧
    (⟨some ⟨1, 1, []⟩, [(1, 0)], [], 1⟩ : Database).get_connection 1 =
      ((⟨some ⟨1, 1, []⟩, [(1, 0)], [], 1⟩ : Database), .alreadyInUse) := by
  have h1 : (Database.init.open_pool 1 none).get_connection 1 =
      ((⟨some ⟨1, 1, []⟩, [(1, 0)], [], 1⟩ : Database), .success 0) := rfl
  exact ⟨h1, (acquire_same_key_already_in_use _ _ 1 0 h1).1⟩

/-- C4: after `close_pool` (the pool reference is dropped), every
subsequent `get_connection` call fails on the no-pool path — the code's
pool-closed failure — handing out nothing and changing nothing. -/
theorem acquire_after_close_fails (db : Database) (key : Nat) :
    (db.close_pool).get_connection key = (db.close_pool, .noPool) :=
  get_connection_noPool _ _ (close_pool_pool db)

/-- C5: for the documented fetch codes (0 = fetchone, 2 = fetchall), a
statement runs inside an implicit transaction: when no error is raised the
effect is committed (the durable state becomes the executed state); when
an error is raised — at execute time or at fetch time — the transaction is
rolled back and the durable state is unchanged. -/
theorem send_transactional (c : Conn σ) (beh : StmtBeh σ ρ) (fm : Nat)
    (hfm : fm = 0 ∨ fm = 2) :
    (beh.succeeds = true →
      (sendOnConn c beh fm).1 = ⟨beh.eff c.current, beh.eff c.current⟩) ∧
    (beh.succeeds = false →
      (sendOnConn c beh fm).1 = ⟨c.committed, c.committed⟩) := by
  obtain rfl | rfl := hfm <;>
  · cases beh with
    | raises f =>
      refine ⟨?_, fun _ => rfl⟩
      intro hs
      simp [StmtBeh.succeeds] at hs
    | ok f fetch =>
      cases fetch with
      | rows rs => exact ⟨fun _ => rfl, fun hs => by
          simp [StmtBeh.succeeds] at hs⟩
      | noResults => exact ⟨fun _ => rfl, fun hs => by
          simp [StmtBeh.succeeds] at hs⟩
      | connErr =>
        refine ⟨?_, fun _ => rfl⟩
        intro hs
        simp [StmtBeh.succeeds] at hs

theorem send_transactional_witness :
    ((2 : Nat) = 0 ∨ (2 : Nat) = 2) ∧
    (sendOnConn (⟨3, 3⟩ : Conn Nat)
        (StmtBeh.ok (fun s => s + 1) (FetchBeh.rows ([7] : List Nat))) 2).1 =
      ⟨4, 4⟩ ∧
    (sendOnConn (⟨3, 3⟩ : Conn Nat)
        (StmtBeh.raises (fun s => s + 1) : StmtBeh Nat Nat) 2).1 = ⟨3, 3⟩ := by
  refine ⟨Or.inr rfl, ?_, ?_⟩
  · exact (send_transactional ⟨3, 3⟩
      (StmtBeh.ok (fun s => s + 1) (FetchBeh.rows ([7] : List Nat))) 2
      (Or.inr rfl)).1 rfl
  · exact (send_transactional ⟨3, 3⟩
      (StmtBeh.raises (fun s => s + 1) : StmtBeh Nat Nat) 2
      (Or.inr rfl)).2 rfl

/-- C6: a statement with no result set (the LISTEN path): the driver's
ProgrammingError on fetch is caught and normalised to the empty list, the
transaction is committed, and the caller receives a normal return of zero
rows — nothing propagates. -/
theorem listen_no_results_normalized (conns : List (Nat × Conn σ))
    (channel : String) (key : Nat) (c : Conn σ) (f : σ → σ)
    (h : lookupKey conns key = some c) :
    listen_on_channel conns channel key
        (StmtBeh.ok f FetchBeh.noResults : StmtBeh σ ρ) =
      (updateConn conns key ⟨f c.current, f c.current⟩,
       .ret (.rows [])) := by
  unfold listen_on_channel dbSend
  rw [h]
  rfl

theorem listen_no_results_normalized_witness :
    lookupKey [(1, (⟨2, 2⟩ : Conn Nat))] 1 = some ⟨2, 2⟩ ∧
    listen_on_channel [(1, (⟨2, 2⟩ : Conn Nat))] "table_changed" 1
        (StmtBeh.ok id FetchBeh.noResults : StmtBeh Nat Nat) =
      ([(1, ⟨2, 2⟩)], .ret (.rows [])) := by
  refine ⟨rfl, ?_⟩
  rw [listen_no_results_normalized [(1, (⟨2, 2⟩ : Conn Nat))]
    "table_changed" 1 ⟨2, 2⟩ id rfl]
  rfl

/-- C7: along every sequence of pool operations from a fresh `Database`
object, no two keys are ever mapped to the same physical connection, no
key is recorded twice, and every idle connection of the pool is distinct
from every other idle connection and from every checked-out connection
(idle XOR checked out under exactly one key). -/
theorem pool_exclusivity (ops : List Op) :
    ((Database.init.run ops).conns.map Prod.fst).Nodup ∧
    ((Database.init.run ops).conns.map Prod.snd).Nodup ∧
    ∀ p : PoolState, (Database.init.run ops).pool = some p →
      p.idle.Nodup ∧
      ∀ c ∈ p.idle, c ∉ (Database.init.run ops).conns.map Prod.snd := by
  obtain ⟨hks, hvs, -, hpool⟩ := inv_run Database.init ops inv_init
  exact ⟨hks, hvs, fun p hp => ⟨(hpool p hp).1, (hpool p hp).2.1⟩⟩

/-- C8: `open_pool` on a database whose pool is already open is a no-op:
the state — pool, connections, bookkeeping — is returned unchanged
whatever the minconns/maxconns arguments of the second call are. -/
theorem open_pool_idempotent (db : Database) (m : Nat) (mx : Option Nat)
    (h : db.pool.isSome = true) : db.open_pool m mx = db := by
  cases hp : db.pool with
  | none =>
    rw [hp] at h
    simp at h
  | some p => exact open_pool_already db m mx p hp

theorem open_pool_idempotent_witness :
    ((Database.init.open_pool 1 none).pool.isSome = true) ∧
    (Database.init.open_pool 1 none).open_pool 5 (some 9) =
      Database.init.open_pool 1 none :=
  ⟨rfl, open_pool_idempotent _ 5 (some 9) rfl⟩

/-- Condition under which the release step of `connect` cannot raise for
this key: either the key is not checked out (release is the warning
no-op), or the checked-out connection has not been closed by a past
`close_pool` — so `conn.reset()` succeeds — and a pool object is present
for `self.pool.putconn`. -/
def releaseSafe (db : Database) (key : Nat) : Bool :=
  match lookupKey db.conns key with
  | none => true
  | some c => decide (c ∉ db.dead) && db.pool.isSome

theorem finish_connect_safe (db1 : Database) (key : Nat)
    (body : BodyOutcome) (hguard : releaseSafe db1 key = true) :
    (db1.finish_connect key body).2 = .completed body.caught ∧
    lookupKey (db1.finish_connect key body).1.conns key = none := by
  unfold Database.finish_connect
  cases hl : lookupKey db1.conns key with
  | none =>
    rw [put_back_neverOpened db1 key hl]
    exact ⟨rfl, hl⟩
  | some c =>
    unfold releaseSafe at hguard
    rw [hl] at hguard
    dsimp only at hguard
    rw [Bool.and_eq_true] at hguard
    obtain ⟨hd', hps⟩ := hguard
    have hd : c ∉ db1.dead := of_decide_eq_true hd'
    obtain ⟨p, hp⟩ := Option.isSome_iff_exists.mp hps
    rw [put_back_ok db1 key c p hl hd hp]
    exact ⟨rfl, lookupKey_removeKey _ _⟩

/-- C9 (as stated, refuted): the with-block of `connect` does NOT always
complete. In the reachable state open-acquire-close, `closeall()` has
closed the checked-out connection, so `conn.reset()` inside the `finally`
clause raises `psycopg2.InterfaceError`, which propagates to the caller —
and it still does so after the pool is reopened (open-acquire-close-open,
where the pool is present again but the stale connection stays closed). -/
theorem connect_release_raises :
    (Database.run Database.init
        [Op.openP 1 none, Op.acquire 1, Op.closeP]).connect 1
        BodyOutcome.normal =
      (Database.run Database.init
        [Op.openP 1 none, Op.acquire 1, Op.closeP],
       ConnectResult.releaseRaised) ∧
    ((Database.run Database.init
        [Op.openP 1 none, Op.acquire 1, Op.closeP, Op.openP 1 none]).connect
        1 BodyOutcome.normal).2 = ConnectResult.releaseRaised ∧
    (Database.run Database.init
        [Op.openP 1 none, Op.acquire 1, Op.closeP,
         Op.openP 1 none]).pool.isSome = true ∧
    ConnectResult.releaseRaised ≠ ConnectResult.completed false ∧
    ConnectResult.releaseRaised ≠ ConnectResult.completed true := by
  exact ⟨rfl, rfl, rfl, by decide, by decide⟩

/-- C9 (amended): `put_back_connection` runs on every exit path of the
wrapped body, and any exception the body raises — `Exception` or
`KeyboardInterrupt` — is caught and logged, never re-raised. Provided the
acquire step does not exit the process on pool exhaustion and the release
is safe for the key in the post-acquire state — the key is not checked
out, or its checked-out connection has not been closed by a past
`close_pool` and the pool is present — the with-block completes without
propagating anything and the key is no longer checked out afterwards.
Otherwise, when the key is checked out on a connection that a past
`close_pool` closed (even if the pool has since been reopened),
`conn.reset()` raises `InterfaceError` out of the `finally` clause. -/
theorem connect_releases_and_swallows (db : Database) (key : Nat)
    (body : BodyOutcome)
    (hguard : releaseSafe (db.get_connection key).1 key = true)
    (hacq : (db.get_connection key).2 ≠ .poolExit) :
    (db.connect key body).2 = .completed body.caught ∧
    lookupKey (db.connect key body).1.conns key = none := by
  unfold Database.connect
  cases hac : db.get_connection key with
  | mk db1 out =>
    rw [hac] at hguard hacq
    cases out with
    | poolExit => exact absurd rfl hacq
    | success c => exact finish_connect_safe db1 key body hguard
    | alreadyInUse => exact finish_connect_safe db1 key body hguard
    | noPool => exact finish_connect_safe db1 key body hguard

theorem connect_releases_and_swallows_witness :
    releaseSafe ((Database.init.open_pool 1 none).get_connection 1).1 1 =
      true ∧
    ((Database.init.open_pool 1 none).get_connection 1).2 ≠
      AcquireOutcome.poolExit ∧
    ((Database.init.open_pool 1 none).connect 1 BodyOutcome.raisesExc).2 =
      ConnectResult.completed true := by
  refine ⟨by decide, by decide, ?_⟩
  exact (connect_releases_and_swallows (Database.init.open_pool 1 none) 1
    BodyOutcome.raisesExc (by decide) (by decide)).1

/-- C10 (as stated, refuted): with `fetch_method = 0` (fetchone), a call
that succeeds on an empty result set returns `None`, not the empty list:
`cur.fetchone()` yields Python `None` when the result set has no rows, so
in that mode a failure and a legitimately empty result are
indistinguishable. -/
theorem send_fetchone_empty_returns_none :
    sendOnConn (⟨0, 0⟩ : Conn Nat)
        (StmtBeh.ok id (FetchBeh.rows ([] : List Nat))) 0 =
      (⟨0, 0⟩, SendOutcome.ret PyVal.none) ∧
    (SendOutcome.ret PyVal.none : SendOutcome Nat) ≠ .ret (.rows []) := by
  exact ⟨rfl, by decide⟩

/-- C10 (amended): `send` returns `None` when the key has no open
connection (nothing is executed: the state is returned untouched), returns
`None` after rollback when the statement raises, and on success with an
empty result set returns the empty list under `fetch_method = 2`
(fetchall) but `None` under `fetch_method = 0` (fetchone); no path raises
to the caller. -/
theorem send_none_vs_empty (conns : List (Nat × Conn σ)) (key : Nat)
    (c : Conn σ) (f : σ → σ) (fm : Nat)
    (h : lookupKey conns key = some c) :
    (∀ (conns' : List (Nat × Conn σ)) (beh : StmtBeh σ ρ),
       lookupKey conns' key = none →
       dbSend conns' key beh fm = (conns', .ret .none)) ∧
    (dbSend conns key (StmtBeh.raises f : StmtBeh σ ρ) fm).2 =
      .ret .none ∧
    (dbSend conns key (StmtBeh.ok f (FetchBeh.rows ([] : List ρ))) 2).2 =
      .ret (.rows []) ∧
    (dbSend conns key (StmtBeh.ok f (FetchBeh.rows ([] : List ρ))) 0).2 =
      .ret .none := by
  refine ⟨?_, ?_, ?_, ?_⟩
  · intro conns' beh h'
    unfold dbSend
    rw [h']
  · unfold dbSend
    rw [h]
    rfl
  · unfold dbSend
    rw [h]
    rfl
  · unfold dbSend
    rw [h]
    rfl

theorem send_none_vs_empty_witness :
    lookupKey [(1, (⟨0, 0⟩ : Conn Nat))] 1 = some ⟨0, 0⟩ ∧
    dbSend ([] : List (Nat × Conn Nat)) 1
        (StmtBeh.raises id : StmtBeh Nat Nat) 2 = ([], .ret .none) ∧
    (dbSend [(1, (⟨0, 0⟩ : Conn Nat))] 1
        (StmtBeh.ok id (FetchBeh.rows ([] : List Nat))) 2).2 =
      .ret (.rows []) := by
  have h := @send_none_vs_empty Nat Nat [(1, (⟨0, 0⟩ : Conn Nat))] 1
    ⟨0, 0⟩ id 2 rfl
  exact ⟨rfl, h.1 [] (StmtBeh.raises id) rfl, h.2.2.1⟩

end SQLUtils
